import Mathlib

/-!
Shallow embedding of `src/main.py` (class `TopHolders`): the chunked log
scanner of `TopHolders.main`, the deposit record, the enrichment
arithmetic, the aggregation/ranking pipeline, and the `millify` formatter.

Conventions used throughout:
* block numbers are `Int` (Python ints); chunk sizes are `Nat`
  (Python `//` on nonnegative ints is `Nat` division, `max(c // 2, 1)`
  becomes `max (c / 2) 1`);
* the provider (`contract.events.Deposit.createFilter(...)` followed by
  `get_all_entries()`) is a function `Int → Int → Option (List (Nat × Int))`:
  `none` models a raised exception, `some entries` the decoded list of
  `(user, amount)` event arguments; the `pid` indexed filter is absorbed
  into the provider; addresses are abstracted as `Nat`;
* Python floats are modelled as exact rationals `ℚ`;
* `assert` failures and raised errors are modelled as `Except.error`;
* the unbounded `while True` loop is modelled with explicit fuel: `none`
  means the fuel ran out before the loop ended.
-/

namespace TopHolders

/-- Source line 13: `CHUNK_SIZE = 4999`. -/
def CHUNK_SIZE : Nat := 4999

/-- Source line 14: `N_BLOCKS = CHUNK_SIZE`. -/
def N_BLOCKS : Int := 4999

/-- Source lines 49-51: `self.contract_info.get('chunk_size') or self.CHUNK_SIZE`.
Python `or` replaces a falsy value (absent key, or `0`) by the default. -/
def chunk_sizeP (c : Option Nat) : Nat :=
  match c with
  | none => CHUNK_SIZE
  | some v => if v = 0 then CHUNK_SIZE else v

/-- Source lines 53-55: `self.contract_info.get('n_blocks') or self.N_BLOCKS`.
Python `or` replaces a falsy value (absent key, or `0`) by the default. -/
def n_blocksP (c : Option Int) : Int :=
  match c with
  | none => N_BLOCKS
  | some v => if v = 0 then N_BLOCKS else v

/-- Source lines 57-59: `self.contract_info.get('min_amount') or 0`. -/
def min_amountP (c : Option Int) : Int :=
  match c with
  | none => 0
  | some v => if v = 0 then 0 else v

/-- Mutable state of the scanning loop in `TopHolders.main` (lines 140-188):
`to_block`, `from_block`, the current `chunk_size`, and the `all_deposits`
dict (modelled as an insertion-ordered association list). -/
structure ScanState where
  toB : Int
  fromB : Int
  chunk : Nat
  deps : List (Nat × Int)
  deriving DecidableEq, Repr

/-- Outcome of one iteration of the `while True` loop: either the loop
`break`s with the accumulated record, or continues with a new state. -/
inductive StepRes where
  | done : List (Nat × Int) → StepRes
  | next : ScanState → StepRes
  deriving DecidableEq, Repr

/-- Log provider: given `from_block` and `to_block`, either raise (`none`)
or return the decoded `(user, amount)` entries (`some`). -/
abbrev Prov := Int → Int → Option (List (Nat × Int))

/-- Source lines 165-166: insert `(user, amount)` only if `user` is not
already a key of `all_deposits` (first write wins); a Python dict insert
appends at the end of the iteration order. -/
def insertDeposit (rec : List (Nat × Int)) (e : Nat × Int) : List (Nat × Int) :=
  if (rec.lookup e.1).isSome then rec else rec ++ [e]

/-- Source lines 164-166: the `for entry in deposit_filter.get_all_entries()`
loop, folding `insertDeposit` over the entries in order. -/
def insertEntries (rec : List (Nat × Int)) (es : List (Nat × Int)) : List (Nat × Int) :=
  es.foldl insertDeposit rec

/-- One iteration of the `while True` loop (source lines 155-188).
On success (lines 164-188): insert all entries, then
`to_block = from_block - 1`,
`from_block = max(first_block, from_block - chunk_size)` (computed with the
chunk size still in effect for the request just made),
`chunk_size = self.chunk_size` (reset to the configured base),
then `if from_block <= first_block: break`.
On exception (lines 171-179): `chunk_size = max(chunk_size // 2, 1)`,
`from_block = to_block - chunk_size`, `continue` with `to_block` unmoved. -/
def scanStep (base : Nat) (first : Int) (prov : Prov) (s : ScanState) : StepRes :=
  match prov s.fromB s.toB with
  | some entries =>
    if max first (s.fromB - (s.chunk : Int)) ≤ first then
      StepRes.done (insertEntries s.deps entries)
    else
      StepRes.next ⟨s.fromB - 1, max first (s.fromB - (s.chunk : Int)), base,
                    insertEntries s.deps entries⟩
  | none =>
    StepRes.next ⟨s.toB, s.toB - (max (s.chunk / 2) 1 : Nat), max (s.chunk / 2) 1, s.deps⟩

/-- The `while True` loop (source lines 155-188), run with explicit fuel.
Returns the accumulated deposit record together with the trace of all
issued chunk requests `(from_block, to_block)` in order of issuance
(failed requests included); `none` when the fuel is exhausted. -/
def scanFuel (base : Nat) (first : Int) (prov : Prov) :
    Nat → ScanState → Option (List (Nat × Int) × List (Int × Int))
  | 0, _ => none
  | fuel + 1, s =>
    match scanStep base first prov s with
    | StepRes.done r => some (r, [(s.fromB, s.toB)])
    | StepRes.next t =>
      match scanFuel base first prov fuel t with
      | some (r, reqs) => some (r, (s.fromB, s.toB) :: reqs)
      | none => none

/-- Source lines 140-148: `to_block = end_block`,
`from_block = to_block - chunk_size`, initial `chunk_size`, empty record. -/
def initState (endB : Int) (cs : Nat) : ScanState :=
  ⟨endB, endB - (cs : Int), cs, []⟩

/-- The whole scan of one contract: `first_block = to_block - n_blocks`
(source line 142), starting from `initState`. -/
def runScan (endB : Int) (nb : Int) (cs : Nat) (prov : Prov) (fuel : Nat) :
    Option (List (Nat × Int) × List (Int × Int)) :=
  scanFuel cs (endB - nb) prov fuel (initState endB cs)

/-- The provider of source lines 160-161 when every request succeeds and the
request width is never over threshold `W`: the request for the interval
from `f` to `t` raises exactly when `t - f > W` (the width of a request,
in the sense in which the halving policy floors it at 1, is `t - f`:
the retry state after halving to 1 requests `from_block = to_block - 1`),
and otherwise returns the entries `ents f t`. -/
def thresholdProv (W : Nat) (ents : Int → Int → List (Nat × Int)) : Prov :=
  fun f t => if (W : Int) < t - f then none else some (ents f t)

/-- Fuel-bounded floor of the base-10 logarithm: `log10floorAux fuel n`
performs at most `fuel` divisions by 10.  Structural in `fuel`, so the
kernel can evaluate it on literals. -/
def log10floorAux : Nat → Nat → Nat
  | 0, _ => 0
  | fuel + 1, n => if n < 10 then 0 else 1 + log10floorAux fuel (n / 10)

/-- Floor of the base-10 logarithm of a positive natural (and `0` on `0`).
64 division steps are enough for every magnitude the `millify` index can
distinguish: the index is clamped to 4 as soon as the logarithm reaches 15,
so capping the count at 64 never changes `millify`'s output. -/
def log10floor (n : Nat) : Nat := log10floorAux 64 n

/-- Source lines 75-76:
`max(0, min(len(millnames)-1, int(math.floor(0 if n == 0 else log10(abs(n))/3))))`.
For a rational `n ≠ 0` this equals `min 4 (⌊log10 |n|⌋ / 3)` clamped below at 0:
`floor (log10 x / 3) = ⌊log10 x⌋ / 3` (floor division) when `|n| ≥ 1`, and
`⌊log10 |n|⌋ = log10floor ⌊|n|⌋` on naturals; for `0 < |n| < 1` both the
Python expression (negative floor, clamped by `max(0, ·)`) and this one
give 0, since `⌊|n|⌋ = 0` there. -/
def millidx (n : ℚ) : Nat :=
  if n = 0 then 0 else min 4 (log10floor (Int.toNat ⌊|n|⌋) / 3)

/-- Rounding of `'{:.0f}'.format` on a nonnegative value: round to the
nearest integer, ties to even (the binary float formatting rule). -/
def roundHalfEven (x : ℚ) : Int :=
  let f := ⌊x⌋
  if x - f < 1 / 2 then f
  else if 1 / 2 < x - f then f + 1
  else if f % 2 = 0 then f else f + 1

/-- Source line 73: `millnames = ['', ' K', ' M', ' B', ' T']`. -/
def millnames : List String := ["", " K", " M", " B", " T"]

/-- Source lines 71-78: the pure formatter
`'{:.0f}{}'.format(n / 10**(3 * millidx), millnames[millidx])`,
modelled over exact rationals. -/
def millify (n : ℚ) : String :=
  toString (roundHalfEven (n / 10 ^ (3 * millidx n))) ++ (millnames.getD (millidx n) "")

/-- Python list indexing `l[i]`: a negative index counts from the end of
the list (`l[i]` is `l[len(l) + i]` for `-len(l) <= i < 0`), and an index
out of range on either side raises `IndexError` (`none` here). -/
def pyIndex (l : List Int) (i : Int) : Option Int :=
  if 0 ≤ i then l.get? i.toNat
  else if 0 ≤ i + (l.length : Int) then l.get? (i + (l.length : Int)).toNat
  else none

/-- Source lines 96-105, `TopHolders.get_lp_ref_reserve`:
`assert ref_token < 2`, `assert len(lp_reserves) == 3`, then
`return lp_reserves[ref_token]` with Python indexing semantics. -/
def get_lp_ref_reserve (lp_reserves : List Int) (ref_token : Int) : Except String Int :=
  if ref_token < 2 then
    if lp_reserves.length = 3 then
      match pyIndex lp_reserves ref_token with
      | some v => Except.ok v
      | none => Except.error "IndexError: list index out of range"
    else Except.error "unexpected length of getReserves"
  else Except.error "ref_token should be 0 or 1"

/-- Static configuration of one contract entry, `contracts_info.json`
fields consumed by `TopHolders.main` (the `_cfg` fields are the raw,
possibly absent, JSON values behind the corresponding properties). -/
structure ContractConfig where
  chunk_size_cfg : Option Nat
  n_blocks_cfg : Option Int
  min_amount_cfg : Option Int
  end_block_cfg : Option Int
  enabled : Bool
  lp_address : Nat
  lp_ref_token : Int
  lp_norm_factor : ℚ

/-- On-chain state consumed by one contract run: `poolInfo(pid)`'s lp
address, the lp pool's `getReserves()`, `balanceOf(master_chef)`,
`totalSupply()`, per-user `userInfo(pid, addr)` (staked amount and reward
debt), `getCode(addr) != b''`, and `w3.eth.blockNumber`. -/
structure ChainData where
  pool_lp_address : Nat
  lp_reserves : List Int
  master_chef_lp : Int
  total_supply_lp : Int
  userInfo : Nat → Int × Int
  isContract : Nat → Bool
  blockNumber : Int

/-- Source lines 107-119, `TopHolders.get_master_chef_balance`:
assert the configured lp address matches `poolInfo`, then
`2 * lp_ref_reserve * (master_chef_lp / total_supply_lp) / norm_factor`. -/
def get_master_chef_balance (cfg : ContractConfig) (cd : ChainData) :
    Except String (ℚ × Int) :=
  if cd.pool_lp_address = cfg.lp_address then
    match get_lp_ref_reserve cd.lp_reserves cfg.lp_ref_token with
    | Except.ok r =>
      Except.ok (2 * (r : ℚ) * ((cd.master_chef_lp : ℚ) / (cd.total_supply_lp : ℚ)) /
                 cfg.lp_norm_factor, cd.master_chef_lp)
    | Except.error e => Except.error e
  else Except.error "please update lp address and abi in contract info"

/-- Final output row (source lines 207-208): address, percentage share of
the total staked amount, millified USD valuation, contract flag. -/
abbrev HolderRow := Nat × ℚ × String × Bool

/-- Source lines 200-208: for each scanned address, in the record's
iteration order, fetch `userInfo`, skip addresses whose current staked
amount is zero, and build the output row. -/
def buildUsersInfo (deposits : List (Nat × Int)) (userInfo : Nat → Int × Int)
    (usd : ℚ) (mclp : Int) (isC : Nat → Bool) : List HolderRow :=
  (deposits.map Prod.fst).filterMap fun addr =>
    if (userInfo addr).1 = 0 then none
    else some (addr, 100 * ((userInfo addr).1 : ℚ) / (mclp : ℚ),
               millify (usd * ((userInfo addr).1 : ℚ) / (mclp : ℚ)), isC addr)

/-- Source line 213: `sorted(users_info, key=lambda x: x[1], reverse=True)`,
a stable sort descending on the percentage-share component (`insertionSort`
with this relation has exactly that stable behaviour). -/
def sortRows (l : List HolderRow) : List HolderRow :=
  l.insertionSort fun x y => y.2.1 ≤ x.2.1

/-- One iteration of the contract loop of `TopHolders.main`
(source lines 129-214), CSV writing aside: skip disabled entries
(`Except.ok none`), resolve `end_block` (line 121-123), check the
`n_blocks >= chunk_size` assertion (line 145), run the chunked scan,
run the enrichment, and produce the sorted rows. -/
def runContract (cfg : ContractConfig) (cd : ChainData) (prov : Prov) (fuel : Nat) :
    Except String (Option (List HolderRow)) :=
  if cfg.enabled = false then Except.ok none
  else
    let to_block :=
      match cfg.end_block_cfg with
      | some e => e
      | none => cd.blockNumber
    let nb := n_blocksP cfg.n_blocks_cfg
    let cs := chunk_sizeP cfg.chunk_size_cfg
    if nb < (cs : Int) then Except.error "n_blocks is expected to be >= chunk_size"
    else
      match scanFuel cs (to_block - nb) prov fuel (initState to_block cs) with
      | none => Except.error "scan did not finish within the given fuel"
      | some (deps, _) =>
        match get_master_chef_balance cfg cd with
        | Except.error e => Except.error e
        | Except.ok (usd, mclp) =>
          Except.ok (some (sortRows (buildUsersInfo deps cd.userInfo usd mclp cd.isContract)))

/-! ### Helper lemmas -/

theorem lookup_append_left (l l' : List (Nat × Int)) (a : Nat) (v : Int)
    (h : l.lookup a = some v) : (l ++ l').lookup a = some v := by
  induction l with
  | nil => simp [List.lookup] at h
  | cons x t ih =>
    cases hax : (a == x.1) with
    | true =>
      simp only [List.cons_append, List.lookup, hax] at h ⊢
      exact h
    | false =>
      simp only [List.cons_append, List.lookup, hax] at h ⊢
      exact ih h

theorem insertDeposit_preserves (rec : List (Nat × Int)) (e : Nat × Int)
    (a : Nat) (v : Int) (h : rec.lookup a = some v) :
    (insertDeposit rec e).lookup a = some v := by
  rw [insertDeposit]
  split
  · exact h
  · exact lookup_append_left _ _ _ _ h

theorem insertEntries_preserves (es : List (Nat × Int)) (rec : List (Nat × Int))
    (a : Nat) (v : Int) (h : rec.lookup a = some v) :
    (insertEntries rec es).lookup a = some v := by
  induction es generalizing rec with
  | nil => exact h
  | cons e es ih =>
    rw [insertEntries, List.foldl_cons]
    exact ih _ (insertDeposit_preserves rec e a v h)

/-! ### Claim theorems -/

/-- C5: first-write-wins invariant of the deposit record: once the scan
state's record maps an address to an amount, the record returned by the
rest of the scan — through any further chunk results, retried or not —
still maps that address to the same amount. -/
theorem scanner_first_write_wins (base : Nat) (first : Int) (prov : Prov)
    (fuel : Nat) (s : ScanState) (a : Nat) (v : Int)
    (out : List (Nat × Int) × List (Int × Int))
    (h : s.deps.lookup a = some v)
    (hs : scanFuel base first prov fuel s = some out) :
    out.1.lookup a = some v := by
  induction fuel generalizing s out with
  | zero => simp [scanFuel] at hs
  | succ fuel ih =>
    rw [scanFuel] at hs
    cases hp : prov s.fromB s.toB with
    | some es =>
      by_cases hbrk : max first (s.fromB - (s.chunk : Int)) ≤ first
      · simp only [scanStep, hp, if_pos hbrk] at hs
        cases hs
        exact insertEntries_preserves es s.deps a v h
      · simp only [scanStep, hp, if_neg hbrk] at hs
        cases hq : scanFuel base first prov fuel
            ⟨s.fromB - 1, max first (s.fromB - (s.chunk : Int)), base,
             insertEntries s.deps es⟩ with
        | none => rw [hq] at hs; cases hs
        | some o =>
          obtain ⟨r, reqs⟩ := o
          rw [hq] at hs
          cases hs
          exact ih _ (r, reqs) (insertEntries_preserves es s.deps a v h) hq
    | none =>
      simp only [scanStep, hp] at hs
      cases hq : scanFuel base first prov fuel
          ⟨s.toB, s.toB - ((max (s.chunk / 2) 1 : Nat) : Int), max (s.chunk / 2) 1,
           s.deps⟩ with
      | none => rw [hq] at hs; cases hs
      | some o =>
        obtain ⟨r, reqs⟩ := o
        rw [hq] at hs
        cases hs
        exact ih ⟨s.toB, s.toB - ((max (s.chunk / 2) 1 : Nat) : Int),
          max (s.chunk / 2) 1, s.deps⟩ (r, reqs) h hq

/-- Witness for C5: a record that already holds address 7 with amount 5 is
scanned through a chunk whose entries claim amount 999 for the same
address; the final record still maps 7 to 5. -/
theorem scanner_first_write_wins_witness :
    ([((7 : Nat), (5 : Int))].lookup 7 = some 5) := by
  have h := scanner_first_write_wins 4 90 (fun _ _ => some [(7, 999)]) 2
    ⟨100, 96, 4, [(7, 5)]⟩ 7 5 ([(7, 5)], [(96, 100), (92, 95)])
    (by decide) (by decide)
  exact h

/-- C1: evaluation of the scan at the claimed scenario
(`window_size = 10000`, `chunk_size = 5000`, `end_block = 1000000`,
provider never fails): the Scanner issues exactly ONE chunk request,
for the interval from 995000 to 1000000, and stops.  After the first
success the loop sets `from_block = max(990000, 995000 - 5000) = 990000`
and immediately breaks (`from_block <= first_block`), so the second
request the spec expects — the one covering blocks 990000-994999 — is
never issued, and the progress bar (total 10000, updated only by 5000)
never completes. -/
theorem scanner_scenario_one_request :
    runScan 1000000 10000 5000 (fun _ _ => some []) 3 =
      some ([], [(995000, 1000000)]) := by
  decide

/-- C2 counterexample: with configured base width 4, floor 0, a chunk width
shrunk to 2 by earlier failures, and a request from 98 to 100 that
succeeds, the code advances to `to = 97` and `from = 96` (computed as
`max(0, 98 - 2)` from the OLD `from` and the still-shrunk width), while
the claim's formula `from = max(floor, to - base) = max(0, 97 - 4)` gives
93.  The claimed advance rule is not the one the code implements. -/
theorem scanner_advance_counterexample :
    scanStep 4 0 (fun _ _ => some []) ⟨100, 98, 2, []⟩ =
        StepRes.next ⟨97, 96, 4, []⟩ ∧
      (96 : Int) ≠ max 0 (97 - 4) := by
  constructor
  · decide
  · decide

/-- C2 (amended): after a successful chunk request that does not reach the
floor, the Scanner advances to `to = from - 1` and computes the next
lower bound as `max(floor, from - width)` from the OLD `from` and the
chunk width in effect for the request just completed (possibly shrunk by
failures); only afterwards is the width variable reset to the configured
base.  Hence the next issued request spans `width - 1` blocks — the
possibly-shrunk width carries over into the next advanced chunk's bounds
— while the width variable is reset to the base. -/
theorem scanner_advance_uses_pre_reset_width (base : Nat) (first : Int)
    (prov : Prov) (s : ScanState) (es : List (Nat × Int))
    (hp : prov s.fromB s.toB = some es)
    (hnoclamp : first < s.fromB - (s.chunk : Int)) :
    scanStep base first prov s =
        StepRes.next ⟨s.fromB - 1, s.fromB - (s.chunk : Int), base,
                      insertEntries s.deps es⟩ ∧
      (s.fromB - 1) - (s.fromB - (s.chunk : Int)) = (s.chunk : Int) - 1 := by
  have hmax : max first (s.fromB - (s.chunk : Int)) = s.fromB - (s.chunk : Int) :=
    max_eq_right (le_of_lt hnoclamp)
  constructor
  · simp only [scanStep, hp, hmax]
    rw [if_neg (by omega : ¬(s.fromB - (s.chunk : Int) ≤ first))]
  · omega

/-- Witness for C2's amended theorem: base width 4, floor 0, shrunk width
2, successful request from 98 to 100. -/
theorem scanner_advance_uses_pre_reset_width_witness :
    scanStep 4 0 (fun _ _ => some []) ⟨100, 98, 2, []⟩ =
        StepRes.next ⟨97, 96, 4, []⟩ ∧
      ((97 : Int) - 96 = 2 - 1) := by
  have h := scanner_advance_uses_pre_reset_width 4 0 (fun _ _ => some [])
    ⟨100, 98, 2, []⟩ [] (by decide) (by decide)
  exact h

/-- C4 counterexample: at chunk width 1 (state `to = 10`, `from = 9`) a
failing provider makes the loop `continue` with the IDENTICAL state —
`chunk_size = max(1 // 2, 1) = 1`, `from_block = 10 - 1 = 9` — so the
request is retried forever; moreover the whole loop never finishes within
any number of steps (here 20) and no fatal error is ever produced: the
code has no escalation path at width 1. -/
theorem scanner_width_one_retries_forever :
    scanStep 4 0 (fun _ _ => none) ⟨10, 9, 1, []⟩ =
        StepRes.next ⟨10, 9, 1, []⟩ ∧
      scanFuel 4 0 (fun _ _ => none) 20 ⟨10, 9, 1, []⟩ = none := by
  constructor
  · decide
  · decide

/-- C4 (amended): a transient provider error during the log scan is never
surfaced to the caller at ANY chunk width — every failure makes the loop
continue with a new state — and when a request at chunk width 1 (its
bounds one block apart) fails, the new state is the old one: the Scanner
retries the same width-1 request indefinitely instead of escalating a
fatal error. -/
theorem scanner_failure_never_fatal (base : Nat) (first : Int) (prov : Prov)
    (s : ScanState) (hp : prov s.fromB s.toB = none) :
    (∃ t, scanStep base first prov s = StepRes.next t) ∧
      (s.chunk = 1 → s.fromB = s.toB - 1 → scanStep base first prov s = StepRes.next s) := by
  constructor
  · refine ⟨⟨s.toB, s.toB - ((max (s.chunk / 2) 1 : Nat) : Int), max (s.chunk / 2) 1,
      s.deps⟩, ?_⟩
    simp only [scanStep, hp]
  · intro h1 hfrom
    obtain ⟨toB, fromB, chunk, deps⟩ := s
    simp only at h1 hfrom hp
    subst h1
    subst hfrom
    simp only [scanStep, hp]
    norm_num

/-- Witness for C4's amended theorem at the concrete width-1 state. -/
theorem scanner_failure_never_fatal_witness :
    (∃ t, scanStep 4 0 (fun _ _ => none) ⟨10, 9, 1, []⟩ = StepRes.next t) ∧
      ((1 : Nat) = 1 → (9 : Int) = 10 - 1 →
        scanStep 4 0 (fun _ _ => none) ⟨10, 9, 1, []⟩ = StepRes.next ⟨10, 9, 1, []⟩) := by
  have h := scanner_failure_never_fatal 4 0 (fun _ _ => none) ⟨10, 9, 1, []⟩ rfl
  exact h

/-- C6 counterexample: a configured window size of 0 does not make the
Scanner return an empty record without issuing any request.  Python's
`or`-default turns the configured 0 into the default window 4999, and the
scan then issues a (first) chunk request: with `end_block = 10000` and the
default chunk size the full run issues the request from 5001 to 10000. -/
theorem window_zero_counterexample :
    n_blocksP (some 0) = 4999 ∧
      runScan 10000 (n_blocksP (some 0)) 4999 (fun _ _ => some []) 2 =
        some ([], [(5001, 10000)]) := by
  constructor
  · decide
  · decide

/-- C6 (amended): a configured window size of zero is falsy in Python, so
`n_blocks` falls back to the default `N_BLOCKS = 4999` and the Scanner
performs a normal scan of that default window; the `while True` loop
always issues at least one chunk request before its break condition is
ever evaluated, so no configuration makes it return without requesting. -/
theorem window_zero_uses_default_window :
    n_blocksP (some 0) = N_BLOCKS ∧
      ∀ (base : Nat) (first : Int) (prov : Prov) (fuel : Nat) (s : ScanState)
        (out : List (Nat × Int) × List (Int × Int)),
        scanFuel base first prov fuel s = some out → out.2 ≠ [] := by
  constructor
  · decide
  · intro base first prov fuel s out hs
    cases fuel with
    | zero => simp [scanFuel] at hs
    | succ fuel =>
      rw [scanFuel] at hs
      cases hstep : scanStep base first prov s with
      | done r =>
        rw [hstep] at hs
        dsimp only at hs
        cases hs
        simp
      | next t =>
        rw [hstep] at hs
        dsimp only at hs
        cases hq : scanFuel base first prov fuel t with
        | none => rw [hq] at hs; cases hs
        | some o =>
          obtain ⟨r, reqs⟩ := o
          rw [hq] at hs
          cases hs
          simp

/-- Witness for C6's amended theorem: the scan of the defaulted window
from `end_block = 10000` issues the request from 5001 to 10000, so the
request trace is nonempty. -/
theorem window_zero_uses_default_window_witness :
    ([((5001 : Int), (10000 : Int))] : List (Int × Int)) ≠ [] := by
  have h := window_zero_uses_default_window.2 4999 5001 (fun _ _ => some []) 2
    ⟨10000, 5001, 4999, []⟩ ([], [(5001, 10000)]) (by decide)
  exact h

/-- C9 counterexample: a negative configured reference-slot index is NOT a
configuration error: `-1` passes the `assert ref_token < 2` check and
Python's negative indexing then returns the THIRD element of the reserves
triple — `get_lp_ref_reserve` succeeds with reserve 30 out of
`[10, 20, 30]` instead of failing. -/
theorem ref_token_negative_counterexample :
    get_lp_ref_reserve [10, 20, 30] (-1) = Except.ok 30 := by
  rfl

/-- C9 (amended): the reserve-slot selection fails with the configuration
error only for configured indices that are at least 2; slot index 0 or 1
returns the reserve in that slot; a negative index passes the assertion
and selects from the end of the reserves triple in Python fashion
(`-1`, `-2`, `-3` return the third, second and first slot), and an index
below `-3` raises `IndexError` rather than the configuration error. -/
theorem ref_token_slot_selection (r0 r1 r2 : Int) (i : Int) :
    (2 ≤ i → get_lp_ref_reserve [r0, r1, r2] i =
        Except.error "ref_token should be 0 or 1") ∧
      get_lp_ref_reserve [r0, r1, r2] 0 = Except.ok r0 ∧
      get_lp_ref_reserve [r0, r1, r2] 1 = Except.ok r1 ∧
      get_lp_ref_reserve [r0, r1, r2] (-1) = Except.ok r2 ∧
      get_lp_ref_reserve [r0, r1, r2] (-2) = Except.ok r1 ∧
      get_lp_ref_reserve [r0, r1, r2] (-3) = Except.ok r0 ∧
      (i < -3 → get_lp_ref_reserve [r0, r1, r2] i =
        Except.error "IndexError: list index out of range") := by
  refine ⟨?_, ?_, ?_, ?_, ?_, ?_, ?_⟩
  · intro hi
    rw [get_lp_ref_reserve, if_neg (by omega)]
  · rfl
  · rfl
  · rfl
  · rfl
  · rfl
  · intro hi
    rw [get_lp_ref_reserve, if_pos (by omega)]
    rw [if_pos (show ([r0, r1, r2].length = 3) from rfl)]
    rw [pyIndex, if_neg (by omega)]
    rw [if_neg (by simp; omega)]

/-- Witness for C9's amended theorem at reserves `[10, 20, 30]` and the
out-of-range index 5 for the two conditional conjuncts. -/
theorem ref_token_slot_selection_witness :
    get_lp_ref_reserve [10, 20, 30] 5 = Except.error "ref_token should be 0 or 1" ∧
      get_lp_ref_reserve [10, 20, 30] 0 = Except.ok 10 := by
  have h := ref_token_slot_selection 10 20 30 5
  exact ⟨h.1 (by decide), h.2.1⟩

/-- C10: the configured minimum-amount threshold has no effect: two
contract configurations that differ only in the `min_amount` field
produce, on identical chain data and provider, the identical result —
same scan, same filtering, same ranked output.  The `min_amount` property
(`min_amountP`, source lines 57-59) is defined but never consulted
anywhere in `runContract`. -/
theorem min_amount_has_no_effect (csc : Option Nat) (nbc : Option Int)
    (m1 m2 : Option Int) (ebc : Option Int) (en : Bool) (lpa : Nat)
    (rt : Int) (nf : ℚ) (cd : ChainData) (prov : Prov) (fuel : Nat) :
    runContract ⟨csc, nbc, m1, ebc, en, lpa, rt, nf⟩ cd prov fuel =
      runContract ⟨csc, nbc, m2, ebc, en, lpa, rt, nf⟩ cd prov fuel := by
  rfl

/-- C7: zero-balance filtering: no address whose current staked amount
(the first component of `userInfo`) is zero appears in the final ranked
output, regardless of its historical deposit amount in the scanned
record. -/
theorem zero_balance_filtered (deposits : List (Nat × Int))
    (userInfo : Nat → Int × Int) (usd : ℚ) (mclp : Int) (isC : Nat → Bool)
    (a : Nat) (h : (userInfo a).1 = 0) :
    a ∉ (sortRows (buildUsersInfo deposits userInfo usd mclp isC)).map Prod.fst := by
  intro hmem
  have hperm : List.Perm (sortRows (buildUsersInfo deposits userInfo usd mclp isC))
      (buildUsersInfo deposits userInfo usd mclp isC) :=
    List.perm_insertionSort _ _
  rw [(hperm.map Prod.fst).mem_iff] at hmem
  obtain ⟨row, hrow, hfst⟩ := List.mem_map.mp hmem
  rw [buildUsersInfo] at hrow
  obtain ⟨addr, haddr, hf⟩ := List.mem_filterMap.mp hrow
  by_cases hz : (userInfo addr).1 = 0
  · rw [if_pos hz] at hf
    cases hf
  · rw [if_neg hz] at hf
    cases hf
    exact hz ((show addr = a from hfst) ▸ h)

/-- Witness for C7: address 1 has a recorded historical deposit of 50 but
a current staked amount of 0, so it is absent from the final output. -/
theorem zero_balance_filtered_witness :
    (1 : Nat) ∉ (sortRows (buildUsersInfo [(1, 50), (2, 60)]
      (fun a => if a = 1 then (0, 0) else (10, 0)) 4 20
      (fun _ => false))).map Prod.fst := by
  have h := zero_balance_filtered [(1, 50), (2, 60)]
    (fun a => if a = 1 then (0, 0) else (10, 0)) 4 20 (fun _ => false) 1
    (by decide)
  exact h

theorem scanFuel_threshold_terminates_aux (W base : Nat)
    (ents : Int → Int → List (Nat × Int)) (first : Int)
    (hW : 1 ≤ W) (hbase : 1 ≤ base) :
    ∀ (T m : Nat) (s : ScanState),
      (s.toB - first).toNat = T → s.chunk + (s.toB - s.fromB).toNat = m →
      1 ≤ s.chunk → s.fromB ≤ s.toB →
      ∃ fuel out, scanFuel base first (thresholdProv W ents) fuel s = some out := by
  intro T
  induction T using Nat.strongRecOn with
  | ind T ihT =>
    intro m
    induction m using Nat.strongRecOn with
    | ind m ihm =>
      intro s hT hm hc hft
      by_cases hfail : (W : Int) < s.toB - s.fromB
      · -- the request raises: halve the width, keep the upper bound
        obtain ⟨c2, hc2def⟩ : ∃ c2, max (s.chunk / 2) 1 = c2 := ⟨_, rfl⟩
        have hc2a : 1 ≤ c2 := by omega
        have hc2b : 2 * c2 ≤ s.chunk + 1 := by omega
        have hstep : scanStep base first (thresholdProv W ents) s =
            StepRes.next ⟨s.toB, s.toB - (c2 : Int), c2, s.deps⟩ := by
          simp only [scanStep, thresholdProv, if_pos hfail, hc2def]
        obtain ⟨fuel, out, hout⟩ :=
          ihm (c2 + (s.toB - (s.toB - (c2 : Int))).toNat)
            (by omega)
            ⟨s.toB, s.toB - (c2 : Int), c2, s.deps⟩
            hT rfl
            (by show 1 ≤ c2; omega)
            (by show s.toB - (c2 : Int) ≤ s.toB; omega)
        obtain ⟨r, reqs⟩ := out
        refine ⟨fuel + 1, (r, (s.fromB, s.toB) :: reqs), ?_⟩
        rw [scanFuel, hstep]
        dsimp only
        rw [hout]
      · by_cases hbrk : max first (s.fromB - (s.chunk : Int)) ≤ first
        · -- the request succeeds and the loop breaks
          refine ⟨1, (insertEntries s.deps (ents s.fromB s.toB), [(s.fromB, s.toB)]), ?_⟩
          have hstep : scanStep base first (thresholdProv W ents) s =
              StepRes.done (insertEntries s.deps (ents s.fromB s.toB)) := by
            simp only [scanStep, thresholdProv, if_neg hfail, if_pos hbrk]
          rw [scanFuel, hstep]
        · -- the request succeeds and the loop advances
          have hx : first < s.fromB - (s.chunk : Int) := by
            by_contra hcon
            push_neg at hcon
            exact hbrk (max_le le_rfl hcon)
          have hmax : max first (s.fromB - (s.chunk : Int)) = s.fromB - (s.chunk : Int) :=
            max_eq_right (le_of_lt hx)
          have hstep : scanStep base first (thresholdProv W ents) s =
              StepRes.next ⟨s.fromB - 1, s.fromB - (s.chunk : Int), base,
                insertEntries s.deps (ents s.fromB s.toB)⟩ := by
            simp only [scanStep, thresholdProv, if_neg hfail, hmax]
            rw [if_neg (not_le.mpr hx)]
          obtain ⟨fuel, out, hout⟩ :=
            ihT ((s.fromB - 1 - first).toNat)
              (by show (s.fromB - 1 - first).toNat < T; omega)
              (base + ((s.fromB - 1) - (s.fromB - (s.chunk : Int))).toNat)
              ⟨s.fromB - 1, s.fromB - (s.chunk : Int), base,
                insertEntries s.deps (ents s.fromB s.toB)⟩
              rfl rfl hbase
              (by show s.fromB - (s.chunk : Int) ≤ s.fromB - 1; omega)
          obtain ⟨r, reqs⟩ := out
          refine ⟨fuel + 1, (r, (s.fromB, s.toB) :: reqs), ?_⟩
          rw [scanFuel, hstep]
          dsimp only
          rw [hout]

/-- C3: for every window and every deterministic provider that fails
exactly the chunk requests whose width exceeds a fixed threshold `W ≥ 1`
and succeeds otherwise, the Scanner's loop terminates: some finite fuel
makes the scan return a record (instead of looping forever), because the
halving lets only finitely many failures occur between successes and each
success strictly shrinks the remaining range. -/
theorem scanner_threshold_terminates (W : Nat) (ents : Int → Int → List (Nat × Int))
    (base : Nat) (endB nb : Int) (hW : 1 ≤ W) (hbase : 1 ≤ base) :
    ∃ fuel out, runScan endB nb base (thresholdProv W ents) fuel = some out := by
  exact scanFuel_threshold_terminates_aux W base ents (endB - nb) hW hbase
    ((endB - (endB - nb)).toNat)
    (base + ((endB - (endB - (base : Int))).toNat)) (initState endB base)
    rfl rfl hbase (by show endB - (base : Int) ≤ endB; omega)

/-- Witness for C3: threshold 1, base width 4, end block 100, window 10,
a provider returning no entries on success. -/
theorem scanner_threshold_terminates_witness :
    ∃ fuel out, runScan 100 10 4 (thresholdProv 1 fun _ _ => []) fuel = some out := by
  have h := scanner_threshold_terminates 1 (fun _ _ => []) 4 100 10
    (by decide) (by decide)
  exact h

theorem log10floorAux_ge (k : Nat) : ∀ (fuel n : Nat),
    10 ^ k ≤ n → k ≤ fuel → k ≤ log10floorAux fuel n := by
  induction k with
  | zero => intro fuel n h1 h2; exact Nat.zero_le _
  | succ k ih =>
    intro fuel n h1 h2
    obtain ⟨f, rfl⟩ : ∃ f, fuel = f + 1 := ⟨fuel - 1, by omega⟩
    rw [log10floorAux]
    have hpow : (10 : Nat) ^ 1 ≤ 10 ^ (k + 1) := Nat.pow_le_pow_right (by norm_num) (by omega)
    have h10 : 10 ≤ n := le_trans (by simpa using hpow) h1
    rw [if_neg (by omega)]
    have hdiv : 10 ^ k ≤ n / 10 := by
      rw [Nat.le_div_iff_mul_le (by norm_num)]
      calc 10 ^ k * 10 = 10 ^ (k + 1) := by ring
        _ ≤ n := h1
    have := ih f (n / 10) hdiv (by omega)
    omega

/-- C8: the pure formatter `millify` maps 0 to `"0"`, 999 to `"999"`,
1000 to `"1 K"`, 1500000 to `"2 M"` (round to nearest at the chosen
scale), and every input at or above `10 ^ 15` is clamped to the largest
suffix `" T"` (the index `min 4 …` saturates at 4) instead of erroring:
the output is the rounded value at scale `10 ^ 12` followed by `" T"`. -/
theorem millify_values :
    millify 0 = "0" ∧ millify 999 = "999" ∧ millify 1000 = "1 K" ∧
      millify 1500000 = "2 M" ∧
      ∀ n : ℚ, 10 ^ 15 ≤ n →
        millify n = toString (roundHalfEven (n / 10 ^ 12)) ++ " T" := by
  refine ⟨?_, ?_, ?_, ?_, ?_⟩
  · rw [millify, millidx, if_pos rfl]
    rw [show (0 : ℚ) / 10 ^ (3 * 0) = 0 by norm_num]
    have hf : ⌊(0 : ℚ)⌋ = 0 := by norm_num
    rw [roundHalfEven]
    simp only [hf]
    norm_num
    decide
  · have hidx : millidx 999 = 0 := by
      rw [millidx, if_neg (by norm_num)]
      rw [show |(999 : ℚ)| = 999 from abs_of_nonneg (by norm_num)]
      rw [show ⌊(999 : ℚ)⌋ = 999 by norm_num]
      decide
    rw [millify, hidx]
    rw [show (999 : ℚ) / 10 ^ (3 * 0) = 999 by norm_num]
    have hf : ⌊(999 : ℚ)⌋ = 999 := by norm_num
    rw [roundHalfEven]
    simp only [hf]
    norm_num
    decide
  · have hidx : millidx 1000 = 1 := by
      rw [millidx, if_neg (by norm_num)]
      rw [show |(1000 : ℚ)| = 1000 from abs_of_nonneg (by norm_num)]
      rw [show ⌊(1000 : ℚ)⌋ = 1000 by norm_num]
      decide
    rw [millify, hidx]
    rw [show (1000 : ℚ) / 10 ^ (3 * 1) = 1 by norm_num]
    have hf : ⌊(1 : ℚ)⌋ = 1 := by norm_num
    rw [roundHalfEven]
    simp only [hf]
    norm_num
    decide
  · have hidx : millidx 1500000 = 2 := by
      rw [millidx, if_neg (by norm_num)]
      rw [show |(1500000 : ℚ)| = 1500000 from abs_of_nonneg (by norm_num)]
      rw [show ⌊(1500000 : ℚ)⌋ = 1500000 by norm_num]
      decide
    rw [millify, hidx]
    rw [show (1500000 : ℚ) / 10 ^ (3 * 2) = 3 / 2 by norm_num]
    have hf : ⌊(3 / 2 : ℚ)⌋ = 1 := by
      rw [Int.floor_eq_iff]
      norm_num
    rw [roundHalfEven]
    simp only [hf]
    norm_num
    decide
  · intro n hn
    have hpos : (0 : ℚ) < n := lt_of_lt_of_le (by positivity) hn
    have hne : n ≠ 0 := ne_of_gt hpos
    have habs : |n| = n := abs_of_nonneg (le_of_lt hpos)
    have hfl : (1000000000000000 : Int) ≤ ⌊n⌋ := by
      rw [Int.le_floor]
      calc ((1000000000000000 : Int) : ℚ) = 10 ^ 15 := by norm_num
        _ ≤ n := hn
    have htn : 10 ^ 15 ≤ Int.toNat ⌊n⌋ := by
      have h15 : (10 : Nat) ^ 15 = 1000000000000000 := by norm_num
      omega
    have hlog : 15 ≤ log10floor (Int.toNat ⌊n⌋) :=
      log10floorAux_ge 15 64 _ htn (by norm_num)
    have hidx : millidx n = 4 := by
      rw [millidx, if_neg hne, habs]
      omega
    rw [millify, hidx]
    rw [show (3 * 4 : ℕ) = 12 from rfl]
    rw [show millnames.getD 4 "" = " T" from rfl]

/-- Witness for C8's quantified clamp clause at the input `10 ^ 15`. -/
theorem millify_values_witness :
    (10 : ℚ) ^ 15 ≤ 10 ^ 15 ∧
      millify (10 ^ 15) =
        toString (roundHalfEven ((10 ^ 15 : ℚ) / 10 ^ 12)) ++ " T" :=
  ⟨le_refl _, millify_values.2.2.2.2 (10 ^ 15) (le_refl _)⟩

end TopHolders
